import Mathlib

/-!
Verification of the poller of the `rss` repository (reddit keyword alerts).

The definitions below are a shallow embedding of `src/poller.py` (with the
data model of `src/db.py`).  Python strings are modelled as `List Char` /
`String`; float timestamps (`created_utc`, checkpoint values) are modelled
as `Int` (the claims only concern ordering and maxima, never float
rounding); database tables are lists of records; the external world
(reddit client construction, per-subreddit fetches, SMTP sends, commit
success) is an explicit environment of injected outcomes, each standing
for the result of the corresponding call *after* its retry wrapper.
-/

/-! ## Python string primitives (ASCII fragment used by the poller) -/

/-- Python `str.strip()` on the character list: whitespace removed from
both ends.  (The poller only ever strips ASCII whitespace.) -/
def pyStrip (cs : List Char) : List Char :=
  ((cs.dropWhile Char.isWhitespace).reverse.dropWhile Char.isWhitespace).reverse

/-- Python `str.lower()` (ASCII). -/
def pyLower (cs : List Char) : List Char :=
  cs.map Char.toLower

/-- Python `str.lstrip(strip)`: removes from the left every character that
is a member of the strip *set* (not the strip string as a unit). -/
def pyLstrip (cs : List Char) (strip : List Char) : List Char :=
  cs.dropWhile (fun c => strip.contains c)

/-- `poller.run_once` line 164: `a.subreddit.strip().lower().lstrip("r/")`. -/
def normalize_subreddit (s : String) : String :=
  String.mk (pyLstrip (pyLower (pyStrip s.data)) ['r', '/'])

/-- `poller.run_once` line 164: `a.keyword.strip()`. -/
def strip_keyword (s : String) : String :=
  String.mk (pyStrip s.data)

/-! ## Keyword matching

`_key_regex(kw) = re.compile(re.escape(kw), re.IGNORECASE)`, used as
`key_re.search(title) or key_re.search(body)`.  Since `re.escape` makes
every character of the keyword literal, a search success is exactly a
case-insensitive literal substring occurrence. -/

/-- Does `hay` start with `needle`? -/
def startsWithL : List Char → List Char → Bool
  | [], _ => true
  | _ :: _, [] => false
  | c :: cs, d :: ds => c == d && startsWithL cs ds

/-- Does `hay` contain `needle` as a contiguous substring? -/
def containsSub (needle : List Char) : List Char → Bool
  | [] => startsWithL needle []
  | d :: ds => startsWithL needle (d :: ds) || containsSub needle ds

/-- `_key_regex(kw).search(s)` as a Boolean: case-insensitive literal
substring test. -/
def regexSearch (kw s : String) : Bool :=
  containsSub (pyLower kw.data) (pyLower s.data)

/-- `poller.run_once` line 212: `key_re.search(title) or key_re.search(body)`. -/
def keywordMatches (kw title body : String) : Bool :=
  regexSearch kw title || regexSearch kw body

/-- Spec-side meaning of "occurs as a literal substring": some split of the
haystack around the needle. -/
def SubstrOf (needle hay : List Char) : Prop :=
  ∃ pre post, hay = pre ++ needle ++ post

/-! ## Retry wrapper (`poller.retry_on_error`, lines 135-150)

```
for attempt in range(max_retries):
    try: return func(...)
    except (retryable) as e:
        if attempt < max_retries - 1:
            time.sleep(delay * (2 ** attempt)); # then next iteration
        else: raise
    except Exception: raise
```
An operation outcome is modelled per attempt index.  The trace records the
value or propagated error, how many attempts ran, and each sleep length. -/

inductive OpErr where
  | retryable (msg : String)
  | fatal (msg : String)
deriving DecidableEq, Repr

structure RetryTrace (α : Type) where
  /-- `none` models the Python `for` loop falling through (only possible
  when `max_retries = 0`, where the function implicitly returns `None`). -/
  result : Option (Except OpErr α)
  attempts : Nat
  sleeps : List Nat

/-- One loop iteration at index `attempt`, with `remaining` iterations
(including this one) left before `range(max_retries)` is exhausted. -/
def retryAux {α : Type} (f : Nat → Except OpErr α) (delay : Nat) :
    (remaining : Nat) → (attempt : Nat) → RetryTrace α
  | 0, _ => ⟨none, 0, []⟩
  | remaining + 1, attempt =>
    match f attempt with
    | .ok a => ⟨some (.ok a), 1, []⟩
    | .error (.fatal m) => ⟨some (.error (.fatal m)), 1, []⟩
    | .error (.retryable m) =>
      if remaining = 0 then
        ⟨some (.error (.retryable m)), 1, []⟩
      else
        let r := retryAux f delay remaining (attempt + 1)
        ⟨r.result, r.attempts + 1, delay * 2 ^ attempt :: r.sleeps⟩

/-- `retry_on_error(func, max_retries, delay)`: attempt `f 0`, `f 1`, ... -/
def retry_on_error {α : Type} (f : Nat → Except OpErr α)
    (max_retries delay : Nat) : RetryTrace α :=
  retryAux f delay max_retries 0

/-! ## Data model (`src/db.py`) -/

structure Post where
  id : String
  created_utc : Int
  title : String
  selftext : String
deriving DecidableEq, Repr

structure Alert where
  id : String
  user_id : String
  subreddit : String
  keyword : String
  is_active : Bool
deriving DecidableEq, Repr

structure User where
  id : String
  email : String
deriving DecidableEq, Repr

structure DeliveryRec where
  alert_id : String
  reddit_post_id : String
deriving DecidableEq, Repr

structure CheckpointRec where
  subreddit : String
  keyword : String
  last_seen_created_utc : Int
deriving DecidableEq, Repr

structure DBState where
  users : List User
  alerts : List Alert
  deliveries : List DeliveryRec
  checkpoints : List CheckpointRec
deriving DecidableEq, Repr

/-- `session.query(Delivery).filter(alert_id == a.id, reddit_post_id == post.id).first()`
viewed as an existence test. -/
def deliveryExists (db : DBState) (aid pid : String) : Bool :=
  db.deliveries.any (fun d => d.alert_id == aid && d.reddit_post_id == pid)

/-- `session.query(User).filter(User.id == a.user_id).first()`. -/
def findUser (db : DBState) (uid : String) : Option User :=
  db.users.find? (fun u => u.id == uid)

/-- `session.get(Checkpoint, {"subreddit": s, "keyword": k})`. -/
def getCheckpoint (db : DBState) (s k : String) : Option CheckpointRec :=
  db.checkpoints.find? (fun c => c.subreddit == s && c.keyword == k)

/-- `chk.last_seen_created_utc if chk else 0.0`. -/
def ckptVal (db : DBState) (s k : String) : Int :=
  match getCheckpoint db s k with
  | some c => c.last_seen_created_utc
  | none => 0

/-- `session.add(Delivery(...)); session.commit()` (insert). -/
def addDelivery (db : DBState) (aid pid : String) : DBState :=
  { db with deliveries := db.deliveries ++ [⟨aid, pid⟩] }

/-- Replace the first checkpoint row with this key, or append a new row:
the step-5 `if not chk: session.add(Checkpoint(...)) else: chk.last_seen... = max_seen`. -/
def upsertCk : List CheckpointRec → String → String → Int → List CheckpointRec
  | [], s, k, v => [⟨s, k, v⟩]
  | c :: rest, s, k, v =>
    if c.subreddit == s && c.keyword == k then ⟨s, k, v⟩ :: rest
    else c :: upsertCk rest s k v

def upsertCheckpoint (db : DBState) (s k : String) (v : Int) : DBState :=
  { db with checkpoints := upsertCk db.checkpoints s k v }

/-! ## Poll cycle engine (`poller.run_once`)

External effects are injected through an `Env`.  Each field stands for the
observable outcome of the corresponding call after its retry wrapper:
`redditInit` for `retry_on_error(make_reddit)`, `fetch s` for
`retry_on_error(lambda: list(reddit.subreddit(s).new(limit=...)))`,
`sendOk aid pid` for the success of `retry_on_error(send_email, ...)` in
the iteration for alert `aid` and post `pid`, `commitDeliveryOk` /
`commitCheckpointOk` for success of the two `session.commit()` sites
(failure = `SQLAlchemyError`, answered by `rollback` + `continue`). -/

structure Env where
  redditInit : Except String Unit
  fetch : String → Except String (List Post)
  sendOk : String → String → Bool
  commitDeliveryOk : String → String → Bool
  commitCheckpointOk : String → String → Bool

/-- One outbound email, as observable output of the cycle. -/
structure SentEmail where
  alert_id : String
  post_id : String
  email : String
deriving DecidableEq, Repr

/-- The state threaded through the cycle: the store, `total_emails`, and
the list of emails actually sent so far. -/
structure CycSt where
  db : DBState
  total_emails : Nat
  sent : List SentEmail
deriving Repr

/-- Body of `for a in alerts:` (poller lines 219-269) for one alert. -/
def processAlert (env : Env) (post : Post) (a : Alert) (st : CycSt) : CycSt :=
  if deliveryExists st.db a.id post.id then st
  else
    match findUser st.db a.user_id with
    | none => st
    | some u =>
      if u.email = "" then st
      else if env.sendOk a.id post.id then
        let st1 : CycSt :=
          { st with total_emails := st.total_emails + 1,
                    sent := st.sent ++ [⟨a.id, post.id, u.email⟩] }
        if env.commitDeliveryOk a.id post.id then
          { st1 with db := addDelivery st1.db a.id post.id }
        else st1
      else st

def processAlerts (env : Env) (post : Post) : List Alert → CycSt → CycSt
  | [], st => st
  | a :: rest, st => processAlerts env post rest (processAlert env post a st)

/-- Body of `for post in posts:` (poller lines 202-269) for one post:
checkpoint skip, `max_seen` update, keyword match, then the alert loop. -/
def processPost (env : Env) (keyword : String) (alerts : List Alert)
    (since : Int) (post : Post) : CycSt × Int → CycSt × Int
  | (st, maxSeen) =>
    if post.created_utc ≤ since then (st, maxSeen)
    else
      let maxSeen1 := if post.created_utc > maxSeen then post.created_utc else maxSeen
      if keywordMatches keyword post.title post.selftext then
        (processAlerts env post alerts st, maxSeen1)
      else (st, maxSeen1)

def processPosts (env : Env) (keyword : String) (alerts : List Alert)
    (since : Int) : List Post → CycSt × Int → CycSt × Int
  | [], acc => acc
  | p :: rest, acc =>
    processPosts env keyword alerts since rest
      (processPost env keyword alerts since p acc)

/-- `posts.sort(key=lambda p: p.created_utc)` (ascending, stable). -/
def sortPosts (ps : List Post) : List Post :=
  List.insertionSort (fun p q => p.created_utc ≤ q.created_utc) ps

/-- One `(subreddit, keyword)` group (poller lines 183-289): read the
checkpoint, fetch (skip the group on failure), process posts oldest to
newest, then upsert the checkpoint to `max_seen` (kept unchanged if that
commit fails). -/
def processGroup (env : Env) (s k : String) (alerts : List Alert)
    (st : CycSt) : CycSt :=
  let since := ckptVal st.db s k
  match env.fetch s with
  | .error _ => st
  | .ok raw =>
    let posts := sortPosts raw
    let res := processPosts env k alerts since posts (st, since)
    if env.commitCheckpointOk s k then
      { res.1 with db := upsertCheckpoint res.1.db s k res.2 }
    else res.1

def processGroups (env : Env) :
    List ((String × String) × List Alert) → CycSt → CycSt
  | [], st => st
  | (sk, alerts) :: rest, st =>
    processGroups env rest (processGroup env sk.1 sk.2 alerts st)

/-- `pairs[key] = pairs.get(key, []) + [a]` on an insertion-ordered dict. -/
def insertPair (key : String × String) (a : Alert) :
    List ((String × String) × List Alert) → List ((String × String) × List Alert)
  | [] => [(key, [a])]
  | (k, as) :: rest =>
    if k = key then (k, as ++ [a]) :: rest
    else (k, as) :: insertPair key a rest

/-- Grouping key: `(a.subreddit.strip().lower().lstrip("r/"), a.keyword.strip())`. -/
def alertKey (a : Alert) : String × String :=
  (normalize_subreddit a.subreddit, strip_keyword a.keyword)

def buildPairs (alerts : List Alert) : List ((String × String) × List Alert) :=
  alerts.foldl (fun ps a => insertPair (alertKey a) a ps) []

/-- The dict returned by `run_once` (`scanned_pairs`, `emails`, optional
`error`). -/
structure Summary where
  scanned_pairs : Nat
  emails : Nat
  error : Option String
deriving DecidableEq, Repr

structure RunResult where
  db : DBState
  summary : Summary
  sent : List SentEmail
deriving Repr

/-- `poller.run_once` (lines 152-299). -/
def runOnce (env : Env) (db : DBState) : RunResult :=
  let active := db.alerts.filter (fun a => a.is_active)
  let pairs := buildPairs active
  if pairs.isEmpty then ⟨db, ⟨0, 0, none⟩, []⟩
  else
    match env.redditInit with
    | .error e => ⟨db, ⟨0, 0, some e⟩, []⟩
    | .ok _ =>
      let st := processGroups env pairs ⟨db, 0, []⟩
      ⟨st.db, ⟨pairs.length, st.total_emails, none⟩, st.sent⟩

/-! ## `poller.main`, single-run path under the lock (lines 336-348) -/

inductive MainOutcome where
  /-- `sys.exit(code)` — nothing printed. -/
  | exited (code : Nat)
  /-- `result = run_once(); print(result)` — the printed summary. -/
  | ran (printed : Summary)
deriving DecidableEq, Repr

structure MainResult where
  outcome : MainOutcome
  db : DBState
  sent : List SentEmail
deriving Repr

/-- Inside `with poller_lock(session) as acquired:`: if not acquired, log a
warning and `sys.exit(0)`; otherwise run one cycle and print its summary. -/
def mainLockPath (acquired : Bool) (env : Env) (db : DBState) : MainResult :=
  if acquired then
    let r := runOnce env db
    ⟨.ran r.summary, r.db, r.sent⟩
  else ⟨.exited 0, db, []⟩

/-! ## Lemmas: substring matching -/

lemma startsWithL_iff (n : List Char) :
    ∀ h : List Char, startsWithL n h = true ↔ ∃ t, h = n ++ t := by
  induction n with
  | nil =>
    intro h
    constructor
    · intro; exact ⟨h, rfl⟩
    · intro; rfl
  | cons c cs ih =>
    intro h
    cases h with
    | nil =>
      simp [startsWithL]
    | cons d ds =>
      simp only [startsWithL, Bool.and_eq_true, beq_iff_eq]
      constructor
      · rintro ⟨hcd, hsw⟩
        obtain ⟨t, ht⟩ := (ih ds).mp hsw
        exact ⟨t, by simp [← hcd, ht]⟩
      · rintro ⟨t, ht⟩
        rw [List.cons_append] at ht
        injection ht with h1 h2
        exact ⟨h1.symm, (ih ds).mpr ⟨t, h2⟩⟩

lemma containsSub_iff (n : List Char) :
    ∀ h : List Char, containsSub n h = true ↔ SubstrOf n h := by
  intro h
  induction h with
  | nil =>
    show startsWithL n [] = true ↔ SubstrOf n []
    rw [startsWithL_iff]
    constructor
    · rintro ⟨t, ht⟩
      exact ⟨[], t, by simpa using ht⟩
    · rintro ⟨pre, post, hp⟩
      simp only [List.nil_eq, List.append_eq_nil] at hp
      exact ⟨[], by simp [hp.1.2, hp.2]⟩
  | cons d ds ih =>
    show (startsWithL n (d :: ds) || containsSub n ds) = true ↔ SubstrOf n (d :: ds)
    rw [Bool.or_eq_true, startsWithL_iff, ih]
    constructor
    · rintro (⟨t, ht⟩ | ⟨pre, post, hp⟩)
      · exact ⟨[], t, by simpa using ht⟩
      · exact ⟨d :: pre, post, by simp [hp]⟩
    · rintro ⟨pre, post, hp⟩
      cases pre with
      | nil =>
        left
        exact ⟨post, by simpa using hp⟩
      | cons x xs =>
        right
        simp only [List.cons_append] at hp
        injection hp with h1 h2
        exact ⟨xs, post, h2⟩

lemma head_dropWhile_false {α : Type} (p : α → Bool) :
    ∀ (l : List α) (c : α), (l.dropWhile p).head? = some c → p c = false := by
  intro l
  induction l with
  | nil => intro c h; simp [List.dropWhile] at h
  | cons x xs ih =>
    intro c h
    rw [List.dropWhile_cons] at h
    by_cases hx : p x = true
    · rw [if_pos hx] at h
      exact ih c h
    · rw [if_neg hx] at h
      simp only [List.head?_cons, Option.some.injEq] at h
      rw [← h]
      exact Bool.eq_false_iff.mpr hx

/-! ## C5: keyword matching is case-insensitive literal substring search -/

/-- C5: for every keyword and item, the keyword matches iff it occurs as a
case-insensitive literal substring of the title or the body; regex
metacharacters are literal text, so "(test)" only matches content that
contains "(test)", and "Seiko" matches "seiko"/"SEIKO"/"SeIkO". -/
theorem spec_c5_keyword_literal_match :
    (∀ kw title body : String,
       keywordMatches kw title body = true ↔
         (SubstrOf (pyLower kw.data) (pyLower title.data) ∨
          SubstrOf (pyLower kw.data) (pyLower body.data)))
    ∧ keywordMatches "(test)" "contains (test) here" "" = true
    ∧ keywordMatches "(test)" "contains test here" "" = false
    ∧ keywordMatches "Seiko" "seiko" "" = true
    ∧ keywordMatches "Seiko" "SEIKO" "" = true
    ∧ keywordMatches "Seiko" "SeIkO" "" = true := by
  refine ⟨?_, by decide, by decide, by decide, by decide, by decide⟩
  intro kw title body
  rw [keywordMatches, Bool.or_eq_true, regexSearch, regexSearch,
    containsSub_iff, containsSub_iff]

/-! ## C3: source normalization uses lstrip, not a single-marker removal -/

/-- C3 counterexample: the claim says a source whose name merely begins
with the letter r keeps its name; the code's
`strip().lower().lstrip("r/")` strips every leading 'r' or '/', so "rust"
normalizes to "ust", not "rust". -/
theorem spec_c3_normalization_cex :
    normalize_subreddit "rust" = "ust" ∧ ("ust" : String) ≠ "rust" := by
  constructor
  · decide
  · decide

/-- C3 amended: normalization is `lower(strip(source))` with ALL leading
'r' and '/' characters removed (Python `lstrip("r/")`).  The four spec
examples normalize as listed, but "rust" becomes "ust"; in general the
result never starts with 'r' or '/'. -/
theorem spec_c3_normalization_amended :
    normalize_subreddit "r/watchexchange" = "watchexchange"
    ∧ normalize_subreddit "watchexchange" = "watchexchange"
    ∧ normalize_subreddit "r/MechMarket" = "mechmarket"
    ∧ normalize_subreddit "  r/test  " = "test"
    ∧ normalize_subreddit "rust" = "ust"
    ∧ (∀ (s : String) (c : Char),
         c ∈ (normalize_subreddit s).data.head? → c ≠ 'r' ∧ c ≠ '/') := by
  refine ⟨by decide, by decide, by decide, by decide, by decide, ?_⟩
  intro s c hc
  have hmem : (normalize_subreddit s).data.head? = some c := Option.mem_def.mp hc
  have hp : (['r', '/'].contains c) = false := by
    apply head_dropWhile_false _ _ c
    exact hmem
  simp only [List.contains_cons, List.contains_nil, Bool.or_eq_false_iff,
    beq_eq_false_iff_ne, ne_eq] at hp
  exact ⟨fun h => hp.1 (by rw [h]), fun h => hp.2.1 (by rw [h])⟩

theorem spec_c3_normalization_amended_witness :
    ('a' : Char) ≠ 'r' ∧ ('a' : Char) ≠ '/' :=
  spec_c3_normalization_amended.2.2.2.2.2 "r/abc" 'a'
    (Option.mem_def.mpr (by decide))

/-! ## C4: retry wrapper behavior -/

lemma retryAux_const_err {α : Type} (f : Nat → Except OpErr α)
    (m : Nat → String) (delay : Nat)
    (hf : ∀ i, f i = .error (.retryable (m i))) :
    ∀ n a, retryAux f delay (n + 1) a =
      ⟨some (.error (.retryable (m (a + n)))), n + 1,
       (List.range n).map (fun i => delay * 2 ^ (a + i))⟩ := by
  intro n
  induction n with
  | zero =>
    intro a
    rw [retryAux, hf a]
    rfl
  | succ n ih =>
    intro a
    have unf : retryAux f delay (n + 1 + 1) a =
        ⟨(retryAux f delay (n + 1) (a + 1)).result,
         (retryAux f delay (n + 1) (a + 1)).attempts + 1,
         delay * 2 ^ a :: (retryAux f delay (n + 1) (a + 1)).sleeps⟩ := by
      rw [retryAux, hf a]
      rfl
    rw [unf, ih (a + 1)]
    have harg : a + 1 + n = a + (n + 1) := by omega
    rw [harg]
    refine congrArg (RetryTrace.mk _ _) ?_
    rw [List.range_succ_eq_map, List.map_cons, List.map_map]
    simp only [List.cons.injEq]
    refine ⟨by rw [Nat.add_zero], ?_⟩
    apply List.map_congr_left
    intro i _
    simp only [Function.comp_apply]
    have hia : a + 1 + i = a + (i + 1) := by omega
    rw [hia]

/-- C4: an operation that always fails with a retryable error is attempted
exactly `max_retries` times, each sleep before retry number i+1 is
`delay * 2 ^ i`, and the error of the final attempt propagates unchanged;
a non-retryable error propagates after a single attempt with no sleep. -/
theorem spec_c4_retry_policy {α : Type} (f g : Nat → Except OpErr α)
    (m : Nat → String) (msg : String) (max_retries delay : Nat)
    (hN : 1 ≤ max_retries)
    (hf : ∀ i, f i = .error (.retryable (m i)))
    (hg : g 0 = .error (.fatal msg)) :
    (retry_on_error f max_retries delay).attempts = max_retries
    ∧ (retry_on_error f max_retries delay).result =
        some (.error (.retryable (m (max_retries - 1))))
    ∧ (retry_on_error f max_retries delay).sleeps =
        (List.range (max_retries - 1)).map (fun i => delay * 2 ^ i)
    ∧ retry_on_error g max_retries delay = ⟨some (.error (.fatal msg)), 1, []⟩ := by
  obtain ⟨n, rfl⟩ : ∃ n, max_retries = n + 1 :=
    ⟨max_retries - 1, (Nat.succ_pred_eq_of_pos hN).symm⟩
  have h := retryAux_const_err f m delay hf n 0
  rw [retry_on_error, h]
  refine ⟨rfl, by simp, by simp, ?_⟩
  rw [retry_on_error, retryAux, hg]

theorem spec_c4_retry_policy_witness :
    (retry_on_error (fun _ => (.error (.retryable "boom") : Except OpErr Nat)) 3 0).attempts = 3
    ∧ retry_on_error (fun _ => (.error (.fatal "bad") : Except OpErr Nat)) 3 0 =
        ⟨some (.error (.fatal "bad")), 1, []⟩ :=
  ⟨(spec_c4_retry_policy (fun _ => .error (.retryable "boom"))
      (fun _ => .error (.fatal "bad")) (fun _ => "boom") "bad" 3 0
      (by decide) (fun _ => rfl) rfl).1,
   (spec_c4_retry_policy (fun _ => .error (.retryable "boom"))
      (fun _ => .error (.fatal "bad")) (fun _ => "boom") "bad" 3 0
      (by decide) (fun _ => rfl) rfl).2.2.2⟩

/-! ## Engine lemmas -/

/-- Exhaustive description of one alert-loop iteration: either the state
is unchanged (dedup hit, missing user, empty address, failed send), or an
email went out — recorded as a delivery only when its commit succeeded. -/
lemma processAlert_cases (env : Env) (post : Post) (a : Alert) (st : CycSt) :
    processAlert env post a st = st ∨
    (∃ u, findUser st.db a.user_id = some u ∧ u.email ≠ "" ∧
       deliveryExists st.db a.id post.id = false ∧
       env.sendOk a.id post.id = true ∧
       ((env.commitDeliveryOk a.id post.id = true ∧
         processAlert env post a st =
           ⟨addDelivery st.db a.id post.id, st.total_emails + 1,
            st.sent ++ [⟨a.id, post.id, u.email⟩]⟩) ∨
        (env.commitDeliveryOk a.id post.id = false ∧
         processAlert env post a st =
           ⟨st.db, st.total_emails + 1,
            st.sent ++ [⟨a.id, post.id, u.email⟩]⟩))) := by
  cases h1 : deliveryExists st.db a.id post.id with
  | true => exact Or.inl (by simp [processAlert, h1])
  | false =>
    cases h2 : findUser st.db a.user_id with
    | none => exact Or.inl (by simp [processAlert, h1, h2])
    | some u =>
      by_cases h3 : u.email = ""
      · exact Or.inl (by simp [processAlert, h1, h2, h3])
      · cases h4 : env.sendOk a.id post.id with
        | false => exact Or.inl (by simp [processAlert, h1, h2, h3, h4])
        | true =>
          cases h5 : env.commitDeliveryOk a.id post.id with
          | true =>
            refine Or.inr ⟨u, rfl, h3, rfl, rfl, Or.inl ⟨rfl, ?_⟩⟩
            simp [processAlert, h1, h2, h3, h4, h5, addDelivery]
          | false =>
            refine Or.inr ⟨u, rfl, h3, rfl, rfl, Or.inr ⟨rfl, ?_⟩⟩
            simp [processAlert, h1, h2, h3, h4, h5]

/-- Generic invariant lifting through the alert loop. -/
lemma lift_processAlerts {P : CycSt → Prop} (env : Env) (post : Post)
    (hA : ∀ a st, P st → P (processAlert env post a st)) :
    ∀ (alerts : List Alert) (st : CycSt), P st → P (processAlerts env post alerts st) := by
  intro alerts
  induction alerts with
  | nil => intro st h; exact h
  | cons a rest ih => intro st h; exact ih _ (hA a st h)

/-- Generic invariant lifting through one post. -/
lemma lift_processPost {P : CycSt → Prop} (env : Env) (keyword : String)
    (alerts : List Alert) (since : Int) (post : Post)
    (hA : ∀ b a st, P st → P (processAlert env b a st)) :
    ∀ (st : CycSt) (m : Int), P st →
      P (processPost env keyword alerts since post (st, m)).1 := by
  intro st m h
  rw [processPost]
  split
  · exact h
  · split <;> split <;>
      first
        | exact lift_processAlerts env post (hA post) alerts st h
        | exact h

/-- Generic invariant lifting through the post loop. -/
lemma lift_processPosts {P : CycSt → Prop} (env : Env) (keyword : String)
    (alerts : List Alert) (since : Int)
    (hA : ∀ b a st, P st → P (processAlert env b a st)) :
    ∀ (posts : List Post) (st : CycSt) (m : Int), P st →
      P (processPosts env keyword alerts since posts (st, m)).1 := by
  intro posts
  induction posts with
  | nil => intro st m h; exact h
  | cons p rest ih =>
    intro st m h
    rw [processPosts]
    rcases hpp : processPost env keyword alerts since p (st, m) with ⟨st1, m1⟩
    have h1 : P st1 := by
      have := lift_processPost env keyword alerts since p hA st m h
      rw [hpp] at this
      exact this
    exact ih st1 m1 h1

/-- Generic invariant lifting through the group loop. -/
lemma lift_processGroups {P : CycSt → Prop} (env : Env)
    (hA : ∀ b a st, P st → P (processAlert env b a st))
    (hCk : ∀ st s k v, P st → P ⟨upsertCheckpoint st.db s k v, st.total_emails, st.sent⟩) :
    ∀ (groups : List ((String × String) × List Alert)) (st : CycSt),
      P st → P (processGroups env groups st) := by
  intro groups
  induction groups with
  | nil => intro st h; exact h
  | cons g rest ih =>
    intro st h
    rcases g with ⟨⟨s, k⟩, alerts⟩
    rw [processGroups]
    apply ih
    rw [processGroup]
    cases hf : env.fetch s with
    | error e => exact h
    | ok raw =>
      dsimp only
      rcases hpp : processPosts env k alerts (ckptVal st.db s k) (sortPosts raw)
          (st, ckptVal st.db s k) with ⟨st1, m1⟩
      have h1 : P st1 := by
        have := lift_processPosts env k alerts (ckptVal st.db s k) hA
          (sortPosts raw) st (ckptVal st.db s k) h
        rw [hpp] at this
        exact this
      split
      · exact hCk st1 s k m1 h1
      · exact h1

/-! ## Concrete fixtures used by witnesses and counterexamples -/

def postEx : Post := ⟨"p1", 100, "Selling Seiko SARB", ""⟩

def dbEx : DBState :=
  ⟨[⟨"u1", "u1@example.com"⟩], [⟨"a1", "u1", "r/watchexchange", "Seiko", true⟩], [], []⟩

/-- All external operations succeed; the fetch returns one matching post. -/
def envEx : Env :=
  ⟨.ok (), fun _ => .ok [postEx], fun _ _ => true, fun _ _ => true, fun _ _ => true⟩

/-- Delivery commits always fail (SQLAlchemyError at the delivery commit). -/
def envExNoCommit : Env :=
  ⟨.ok (), fun _ => .ok [postEx], fun _ _ => true, fun _ _ => false, fun _ _ => true⟩

/-- Every fetch fails (after retries). -/
def envExFetchErr : Env :=
  ⟨.ok (), fun _ => .error "rate limited", fun _ _ => true, fun _ _ => true, fun _ _ => true⟩

/-- Reddit client construction fails (after retries). -/
def envExInitErr : Env :=
  ⟨.error "Reddit credentials missing.", fun _ => .ok [postEx],
   fun _ _ => true, fun _ _ => true, fun _ _ => true⟩

/-! ## C6: lock not acquired -/

/-- C6 counterexample: with the lock not acquired the program exits with
status 0 and reports nothing — in particular it does not report the
summary `{scanned: 0, emails: 0, skipped: true}` the claim promises (no
summary value of any shape is printed). -/
theorem spec_c6_lock_skip_cex :
    mainLockPath false envEx dbEx = ⟨.exited 0, dbEx, []⟩
    ∧ MainOutcome.exited 0 ≠ MainOutcome.ran ⟨0, 0, none⟩ :=
  ⟨rfl, by decide⟩

/-- C6 amended: when the lock acquire returns false the run ends
immediately via `sys.exit(0)` — success-equivalent, not an error — with
no store writes and no sends; but no summary dict is reported at all. -/
theorem spec_c6_lock_skip_amended (env : Env) (db : DBState) :
    mainLockPath false env db = ⟨.exited 0, db, []⟩ := rfl

/-! ## C8: construction failure is cycle-fatal, fetch failure is group-fatal -/

/-- C8: if the reddit client cannot be constructed (and there was work to
do), the whole cycle aborts with the store untouched, nothing sent, and an
error field in the summary; a fetch failure for one group leaves that
group's state untouched (no matching, sends, or checkpoint update) and
processing continues with the remaining groups. -/
theorem spec_c8_fatal_scopes :
    (∀ (env : Env) (db : DBState) (e : String),
       buildPairs (db.alerts.filter (fun a => a.is_active)) ≠ [] →
       env.redditInit = .error e →
       runOnce env db = ⟨db, ⟨0, 0, some e⟩, []⟩)
    ∧ (∀ (env : Env) (s k : String) (alerts : List Alert) (st : CycSt)
         (e : String) (rest : List ((String × String) × List Alert)),
         env.fetch s = .error e →
         processGroup env s k alerts st = st
         ∧ processGroups env (((s, k), alerts) :: rest) st = processGroups env rest st) := by
  constructor
  · intro env db e hne hinit
    cases hp : buildPairs (db.alerts.filter fun a => a.is_active) with
    | nil => exact absurd hp hne
    | cons hd tl => simp [runOnce, hp, hinit]
  · intro env s k alerts st e rest hf
    have hg : processGroup env s k alerts st = st := by
      rw [processGroup, hf]
    exact ⟨hg, by rw [processGroups, hg]⟩

theorem spec_c8_fatal_scopes_witness :
    processGroup envExFetchErr "watchexchange" "Seiko" [] ⟨dbEx, 0, []⟩ = ⟨dbEx, 0, []⟩
    ∧ runOnce envExInitErr dbEx =
        ⟨dbEx, ⟨0, 0, some "Reddit credentials missing."⟩, []⟩ :=
  ⟨(spec_c8_fatal_scopes.2 envExFetchErr "watchexchange" "Seiko" [] ⟨dbEx, 0, []⟩
      "rate limited" [] rfl).1,
   spec_c8_fatal_scopes.1 envExInitErr dbEx "Reddit credentials missing."
     (by decide) rfl⟩

/-! ## C10: the emails counter counts successful sends, not recorded deliveries -/

lemma emailsInv_step (env : Env) (post : Post) (a : Alert) (st : CycSt)
    (h : st.total_emails = st.sent.length) :
    (processAlert env post a st).total_emails = (processAlert env post a st).sent.length := by
  rcases processAlert_cases env post a st with he | ⟨u, _, _, _, _, ⟨_, he⟩ | ⟨_, he⟩⟩ <;>
    rw [he] <;> simp [h]

lemma delsFail_step (env : Env) (post : Post) (a : Alert) (st : CycSt) (D : List DeliveryRec)
    (hc : ∀ x y, env.commitDeliveryOk x y = false)
    (h : st.db.deliveries = D) :
    (processAlert env post a st).db.deliveries = D := by
  rcases processAlert_cases env post a st with he | ⟨u, _, _, _, _, ⟨hcm, _⟩ | ⟨_, he⟩⟩
  · rw [he]; exact h
  · rw [hc a.id post.id] at hcm; exact absurd hcm (by simp)
  · rw [he]; exact h

/-- C10: the summary's `emails` field equals the number of emails actually
sent; when every delivery commit fails, sends still count while the
deliveries table is left unchanged, so `emails` can exceed the number of
delivery rows written. -/
theorem spec_c10_emails_counts_sends :
    (∀ (env : Env) (db : DBState),
       (runOnce env db).summary.emails = (runOnce env db).sent.length)
    ∧ (∀ (env : Env) (db : DBState),
         (∀ x y, env.commitDeliveryOk x y = false) →
         (runOnce env db).db.deliveries = db.deliveries) := by
  constructor
  · intro env db
    rw [runOnce]
    dsimp only
    split
    · rfl
    · split
      · rfl
      · refine lift_processGroups (P := fun st => st.total_emails = st.sent.length)
          env ?_ ?_ _ _ rfl
        · intro b a st h; exact emailsInv_step env b a st h
        · intro st s k v h; exact h
  · intro env db hc
    rw [runOnce]
    dsimp only
    split
    · rfl
    · split
      · rfl
      · refine lift_processGroups (P := fun st => st.db.deliveries = db.deliveries)
          env ?_ ?_ _ _ rfl
        · intro b a st h; exact delsFail_step env b a st db.deliveries hc h
        · intro st s k v h; exact h

theorem spec_c10_emails_counts_sends_witness :
    (runOnce envExNoCommit dbEx).db.deliveries = dbEx.deliveries
    ∧ (runOnce envExNoCommit dbEx).summary.emails = 1 :=
  ⟨(spec_c10_emails_counts_sends.2 envExNoCommit dbEx fun _ _ => rfl),
   by decide⟩

/-! ## C2: checkpoint monotonicity and old-item skipping -/

lemma processAlert_ckpts (env : Env) (post : Post) (a : Alert) (st : CycSt) :
    (processAlert env post a st).db.checkpoints = st.db.checkpoints := by
  rcases processAlert_cases env post a st with he | ⟨u, _, _, _, _, ⟨_, he⟩ | ⟨_, he⟩⟩ <;>
    (rw [he]; try rfl)

lemma processPosts_ckpts (env : Env) (k : String) (alerts : List Alert)
    (since : Int) (posts : List Post) (st : CycSt) (m : Int) :
    (processPosts env k alerts since posts (st, m)).1.db.checkpoints
      = st.db.checkpoints := by
  refine lift_processPosts (P := fun s2 => s2.db.checkpoints = st.db.checkpoints)
    env k alerts since ?_ posts st m rfl
  intro b a s2 h
  rw [processAlert_ckpts]
  exact h

lemma processPosts_snd_ge (env : Env) (k : String) (alerts : List Alert)
    (since : Int) :
    ∀ (posts : List Post) (st : CycSt) (m : Int),
      m ≤ (processPosts env k alerts since posts (st, m)).2 := by
  intro posts
  induction posts with
  | nil => intro st m; exact le_refl m
  | cons p rest ih =>
    intro st m
    rw [processPosts]
    rcases hpp : processPost env k alerts since p (st, m) with ⟨st1, m1⟩
    have hstep : m ≤ m1 := by
      rw [processPost] at hpp
      split at hpp
      · cases hpp; exact le_refl _
      · dsimp only at hpp
        split at hpp <;> split at hpp <;> cases hpp <;> omega
    exact le_trans hstep (ih st1 m1)

lemma find_upsertCk_self (s k : String) (v : Int) :
    ∀ l : List CheckpointRec,
      (upsertCk l s k v).find? (fun c => c.subreddit == s && c.keyword == k)
        = some ⟨s, k, v⟩ := by
  intro l
  induction l with
  | nil => simp [upsertCk]
  | cons c rest ih =>
    rw [upsertCk]
    by_cases hm : (c.subreddit == s && c.keyword == k) = true
    · rw [if_pos hm]
      simp
    · rw [if_neg hm]
      rw [List.find?_cons_of_neg (p := fun x : CheckpointRec => x.subreddit == s && x.keyword == k) _ hm]
      exact ih

lemma find_upsertCk_ne (s1 k1 s k : String) (v : Int)
    (hne : ¬(s1 = s ∧ k1 = k)) :
    ∀ l : List CheckpointRec,
      (upsertCk l s1 k1 v).find? (fun c => c.subreddit == s && c.keyword == k)
        = l.find? (fun c => c.subreddit == s && c.keyword == k) := by
  have hfalse : ((s1 == s && k1 == k) : Bool) = false := by
    cases hs : (s1 == s) <;> cases hk : (k1 == k) <;> simp_all [beq_iff_eq]
  intro l
  induction l with
  | nil =>
    simp [upsertCk, List.find?, hfalse]
  | cons c rest ih =>
    rw [upsertCk]
    by_cases hm : (c.subreddit == s1 && c.keyword == k1) = true
    · rw [if_pos hm]
      have hc1 : c.subreddit = s1 ∧ c.keyword = k1 := by
        simpa [beq_iff_eq] using hm
      have hcq : ((c.subreddit == s && c.keyword == k) : Bool) = false := by
        rw [hc1.1, hc1.2]; exact hfalse
      rw [List.find?_cons_of_neg (p := fun x : CheckpointRec => x.subreddit == s && x.keyword == k)
            rest (by simp [hfalse]),
          List.find?_cons_of_neg (p := fun x : CheckpointRec => x.subreddit == s && x.keyword == k)
            rest (by simp [hcq])]
    · rw [if_neg hm]
      by_cases hq : (c.subreddit == s && c.keyword == k) = true
      · rw [List.find?_cons_of_pos (p := fun x : CheckpointRec => x.subreddit == s && x.keyword == k)
              (upsertCk rest s1 k1 v) hq,
            List.find?_cons_of_pos (p := fun x : CheckpointRec => x.subreddit == s && x.keyword == k)
              rest hq]
      · rw [List.find?_cons_of_neg (p := fun x : CheckpointRec => x.subreddit == s && x.keyword == k)
              (upsertCk rest s1 k1 v) hq,
            List.find?_cons_of_neg (p := fun x : CheckpointRec => x.subreddit == s && x.keyword == k)
              rest hq]
        exact ih

lemma ckptVal_upsert_self (db : DBState) (s k : String) (v : Int) :
    ckptVal (upsertCheckpoint db s k v) s k = v := by
  rw [ckptVal, getCheckpoint, upsertCheckpoint]
  dsimp only
  rw [find_upsertCk_self]

lemma ckptVal_upsert_ne (db : DBState) (s1 k1 s k : String) (v : Int)
    (hne : ¬(s1 = s ∧ k1 = k)) :
    ckptVal (upsertCheckpoint db s1 k1 v) s k = ckptVal db s k := by
  rw [ckptVal, ckptVal, getCheckpoint, getCheckpoint, upsertCheckpoint]
  dsimp only
  rw [find_upsertCk_ne s1 k1 s k v hne]

lemma ckptVal_eq_of_ckpts_eq {db1 db2 : DBState} (s k : String)
    (h : db1.checkpoints = db2.checkpoints) : ckptVal db1 s k = ckptVal db2 s k := by
  rw [ckptVal, ckptVal, getCheckpoint, getCheckpoint, h]

lemma ckptVal_processGroup_mono (env : Env) (gs gk : String)
    (alerts : List Alert) (st : CycSt) (s k : String) :
    ckptVal st.db s k ≤ ckptVal (processGroup env gs gk alerts st).db s k := by
  rw [processGroup]
  cases hf : env.fetch gs with
  | error e => exact le_refl _
  | ok raw =>
    dsimp only
    rcases hpp : processPosts env gk alerts (ckptVal st.db gs gk) (sortPosts raw)
        (st, ckptVal st.db gs gk) with ⟨st1, m1⟩
    have hck : st1.db.checkpoints = st.db.checkpoints := by
      have := processPosts_ckpts env gk alerts (ckptVal st.db gs gk) (sortPosts raw)
        st (ckptVal st.db gs gk)
      rw [hpp] at this
      exact this
    have hv : ckptVal st1.db s k = ckptVal st.db s k := ckptVal_eq_of_ckpts_eq s k hck
    have hm : ckptVal st.db gs gk ≤ m1 := by
      have := processPosts_snd_ge env gk alerts (ckptVal st.db gs gk) (sortPosts raw)
        st (ckptVal st.db gs gk)
      rw [hpp] at this
      exact this
    split
    · show ckptVal st.db s k ≤ ckptVal (upsertCheckpoint st1.db gs gk m1) s k
      by_cases heq : gs = s ∧ gk = k
      · obtain ⟨rfl, rfl⟩ := heq
        rw [ckptVal_upsert_self]
        exact hm
      · rw [ckptVal_upsert_ne st1.db gs gk s k m1 heq, hv]
    · rw [hv]

lemma ckptVal_processGroups_mono (env : Env) (s k : String) :
    ∀ (groups : List ((String × String) × List Alert)) (st : CycSt),
      ckptVal st.db s k ≤ ckptVal (processGroups env groups st).db s k := by
  intro groups
  induction groups with
  | nil => intro st; exact le_refl _
  | cons g rest ih =>
    intro st
    rcases g with ⟨⟨gs, gk⟩, alerts⟩
    rw [processGroups]
    exact le_trans (ckptVal_processGroup_mono env gs gk alerts st s k)
      (ih (processGroup env gs gk alerts st))

/-- C2: per-pair checkpoints never decrease across a cycle, and an item
whose `created` is at or below the checkpoint read at the start of its
group is skipped entirely — the per-post step leaves the state and
`max_seen` untouched, so it is neither re-matched nor re-delivered. -/
theorem spec_c2_checkpoint_monotone :
    (∀ (env : Env) (db : DBState) (s k : String),
       ckptVal db s k ≤ ckptVal (runOnce env db).db s k)
    ∧ (∀ (env : Env) (k : String) (alerts : List Alert) (since : Int)
         (post : Post) (st : CycSt) (maxSeen : Int),
         post.created_utc ≤ since →
         processPost env k alerts since post (st, maxSeen) = (st, maxSeen)) := by
  constructor
  · intro env db s k
    rw [runOnce]
    dsimp only
    split
    · exact le_refl _
    · split
      · exact le_refl _
      · exact ckptVal_processGroups_mono env s k _ ⟨db, 0, []⟩
  · intro env k alerts since post st maxSeen h
    rw [processPost, if_pos h]

theorem spec_c2_checkpoint_monotone_witness :
    processPost envEx "seiko" [] 100 ⟨"p0", 50, "old post", ""⟩ (⟨dbEx, 0, []⟩, 100)
      = (⟨dbEx, 0, []⟩, 100) :=
  spec_c2_checkpoint_monotone.2 envEx "seiko" [] 100 ⟨"p0", 50, "old post", ""⟩
    ⟨dbEx, 0, []⟩ 100 (by decide)

/-! ## C9: the committed checkpoint value -/

/-- `max_seen` accumulation, one post at a time. -/
def maxStep (m : Int) (p : Post) : Int := max m p.created_utc

instance : RightCommutative maxStep :=
  ⟨fun b p q => by
    simp only [maxStep]
    rw [max_assoc, max_comm p.created_utc q.created_utc, ← max_assoc]⟩

lemma processPosts_snd_eq (env : Env) (k : String) (alerts : List Alert)
    (since : Int) :
    ∀ (posts : List Post) (st : CycSt) (m : Int), since ≤ m →
      (processPosts env k alerts since posts (st, m)).2 = posts.foldl maxStep m := by
  intro posts
  induction posts with
  | nil => intro st m _; rfl
  | cons p rest ih =>
    intro st m hm
    rw [processPosts, List.foldl_cons]
    rcases hpp : processPost env k alerts since p (st, m) with ⟨st1, m1⟩
    have hkey : m1 = maxStep m p ∧ since ≤ m1 := by
      rw [processPost] at hpp
      split at hpp
      · cases hpp
        exact ⟨(max_eq_left (by omega)).symm, hm⟩
      · dsimp only at hpp
        split at hpp <;> split at hpp <;> cases hpp <;>
          first
            | exact ⟨(max_eq_right (by omega)).symm, by omega⟩
            | exact ⟨(max_eq_left (by omega)).symm, by omega⟩
    rw [ih st1 m1 hkey.2, hkey.1]

lemma foldl_maxStep_sort (raw : List Post) (m : Int) :
    (sortPosts raw).foldl maxStep m = raw.foldl maxStep m :=
  (List.perm_insertionSort _ raw).foldl_eq m

lemma foldl_maxStep_ge : ∀ (l : List Post) (m : Int), m ≤ l.foldl maxStep m := by
  intro l
  induction l with
  | nil => intro m; exact le_refl m
  | cons p rest ih =>
    intro m
    rw [List.foldl_cons]
    exact le_trans (le_max_left m p.created_utc) (ih (maxStep m p))

lemma mem_le_foldl_maxStep :
    ∀ (l : List Post) (m : Int) (p : Post), p ∈ l →
      p.created_utc ≤ l.foldl maxStep m := by
  intro l
  induction l with
  | nil => intro m p hp; cases hp
  | cons q rest ih =>
    intro m p hp
    rw [List.foldl_cons]
    rcases List.mem_cons.mp hp with rfl | hp2
    · exact le_trans (le_max_right m p.created_utc) (foldl_maxStep_ge rest _)
    · exact ih _ p hp2

/-- C9: when the fetch and the checkpoint commit succeed, the checkpoint
written for the group equals the running maximum of the old checkpoint
and all fetched creation timestamps — for every environment (any send
outcomes), any keyword, any subscriptions, and any delivery state — and
so every fetched item ends at or below the new checkpoint. -/
theorem spec_c9_checkpoint_value (env : Env) (s k : String) (alerts : List Alert)
    (db : DBState) (tot : Nat) (sent : List SentEmail) (posts : List Post)
    (hf : env.fetch s = .ok posts)
    (hck : env.commitCheckpointOk s k = true) :
    ckptVal (processGroup env s k alerts ⟨db, tot, sent⟩).db s k
      = posts.foldl maxStep (ckptVal db s k)
    ∧ ∀ p ∈ posts,
        p.created_utc ≤ ckptVal (processGroup env s k alerts ⟨db, tot, sent⟩).db s k := by
  have hmain : ckptVal (processGroup env s k alerts ⟨db, tot, sent⟩).db s k
      = posts.foldl maxStep (ckptVal db s k) := by
    rw [processGroup, hf]
    dsimp only
    rcases hpp : processPosts env k alerts (ckptVal db s k) (sortPosts posts)
        (⟨db, tot, sent⟩, ckptVal db s k) with ⟨st1, m1⟩
    split
    · show ckptVal (upsertCheckpoint st1.db s k m1) s k = _
      rw [ckptVal_upsert_self]
      have := processPosts_snd_eq env k alerts (ckptVal db s k) (sortPosts posts)
        ⟨db, tot, sent⟩ (ckptVal db s k) (le_refl _)
      rw [hpp] at this
      dsimp only at this
      rw [this, foldl_maxStep_sort]
    · exact absurd hck (by assumption)
  refine ⟨hmain, ?_⟩
  intro p hp
  rw [hmain]
  exact mem_le_foldl_maxStep posts _ p hp

theorem spec_c9_checkpoint_value_witness :
    ckptVal (processGroup envEx "watchexchange" "Seiko" [] ⟨dbEx, 0, []⟩).db
        "watchexchange" "Seiko"
      = [postEx].foldl maxStep (ckptVal dbEx "watchexchange" "Seiko") :=
  (spec_c9_checkpoint_value envEx "watchexchange" "Seiko" [] dbEx 0 [] [postEx]
    rfl rfl).1

/-! ## C7: send before record; failed send leaves no record and continues -/

def alertEx : Alert := ⟨"a1", "u1", "r/watchexchange", "Seiko", true⟩

def userEx : User := ⟨"u1", "u1@example.com"⟩

/-- C7: for an alert that reaches the send (no prior delivery, user found,
address nonempty): a failed send leaves the state untouched — no delivery
row — and the loop just moves to the remaining subscriptions; a successful
send is counted and appended to the outbox, with the delivery row
committed right after it exactly when that commit succeeds. -/
theorem spec_c7_send_then_record (env : Env) (post : Post) (a : Alert)
    (st : CycSt) (u : User)
    (h1 : deliveryExists st.db a.id post.id = false)
    (h2 : findUser st.db a.user_id = some u)
    (h3 : u.email ≠ "") :
    (env.sendOk a.id post.id = false →
       processAlert env post a st = st
       ∧ ∀ rest, processAlerts env post (a :: rest) st = processAlerts env post rest st)
    ∧ (env.sendOk a.id post.id = true →
         (processAlert env post a st).sent = st.sent ++ [⟨a.id, post.id, u.email⟩]
         ∧ (processAlert env post a st).total_emails = st.total_emails + 1
         ∧ (env.commitDeliveryOk a.id post.id = true →
              (processAlert env post a st).db.deliveries
                = st.db.deliveries ++ [⟨a.id, post.id⟩])
         ∧ (env.commitDeliveryOk a.id post.id = false →
              (processAlert env post a st).db = st.db)) := by
  constructor
  · intro hs
    have he : processAlert env post a st = st := by
      simp [processAlert, h1, h2, h3, hs]
    exact ⟨he, fun rest => by rw [processAlerts, he]⟩
  · intro hs
    cases hc : env.commitDeliveryOk a.id post.id with
    | true =>
      refine ⟨?_, ?_, fun _ => ?_, fun h => by simp at h⟩ <;>
        simp [processAlert, h1, h2, h3, hs, hc, addDelivery]
    | false =>
      refine ⟨?_, ?_, fun h => by simp at h, fun _ => ?_⟩ <;>
        simp [processAlert, h1, h2, h3, hs, hc]

theorem spec_c7_send_then_record_witness :
    (processAlert envEx postEx alertEx ⟨dbEx, 0, []⟩).sent
      = [] ++ [⟨"a1", "p1", "u1@example.com"⟩] :=
  ((spec_c7_send_then_record envEx postEx alertEx ⟨dbEx, 0, []⟩ userEx rfl rfl
      (by decide)).2 rfl).1

/-! ## C1: delivery-record dedup makes a repeated cycle send nothing new -/

/-- How many of the sent emails belong to this (alert, post) pair. -/
def countSends (l : List SentEmail) (aid pid : String) : Nat :=
  (l.filter (fun e => e.alert_id == aid && e.post_id == pid)).length

/-- 1 while the delivery record is absent, 0 once it exists. -/
def delInd (db : DBState) (aid pid : String) : Nat :=
  if deliveryExists db aid pid then 0 else 1

/-- Potential function: sends so far plus the remaining allowance. -/
def pot (aid pid : String) (st : CycSt) : Nat :=
  countSends st.sent aid pid + delInd st.db aid pid

lemma countSends_append (l1 l2 : List SentEmail) (aid pid : String) :
    countSends (l1 ++ l2) aid pid = countSends l1 aid pid + countSends l2 aid pid := by
  simp [countSends, List.filter_append]

lemma deliveryExists_addDelivery (db : DBState) (x y a p : String) :
    deliveryExists (addDelivery db x y) a p
      = (deliveryExists db a p || (x == a && y == p)) := by
  simp [deliveryExists, addDelivery, List.any_append]

lemma delInd_congr {db1 db2 : DBState} (a p : String)
    (h : deliveryExists db1 a p = deliveryExists db2 a p) :
    delInd db1 a p = delInd db2 a p := by
  rw [delInd, delInd, h]

lemma pot_processAlert (env : Env) (aid pid : String) (post : Post) (a : Alert)
    (st : CycSt) (hc : ∀ x y, env.commitDeliveryOk x y = true) :
    pot aid pid (processAlert env post a st) ≤ pot aid pid st := by
  rcases processAlert_cases env post a st with he | ⟨u, hu, hmail, hnodup, hsend, hcase⟩
  · rw [he]
  · rcases hcase with ⟨hcm, he⟩ | ⟨hcm, he⟩
    swap
    · rw [hc a.id post.id] at hcm; simp at hcm
    · rw [he]
      by_cases hap : a.id = aid ∧ post.id = pid
      · obtain ⟨ha, hp⟩ := hap
        have hone : countSends [⟨a.id, post.id, u.email⟩] aid pid = 1 := by
          simp [countSends, ha, hp]
        have hex : deliveryExists (addDelivery st.db a.id post.id) aid pid = true := by
          rw [deliveryExists_addDelivery]
          simp [ha, hp]
        have hnot : deliveryExists st.db aid pid = false := by
          rw [← ha, ← hp]; exact hnodup
        rw [pot, pot]
        dsimp only
        rw [countSends_append, hone]
        simp [delInd, hex, hnot]
      · have hpred : ((a.id == aid && post.id == pid) : Bool) = false := by
          cases hA : (a.id == aid) <;> cases hP : (post.id == pid) <;>
            simp_all [beq_iff_eq]
        have hzero : countSends [⟨a.id, post.id, u.email⟩] aid pid = 0 := by
          simp only [countSends]
          rw [List.filter_cons]
          dsimp only
          rw [hpred]
          rfl
        have hsame : deliveryExists (addDelivery st.db a.id post.id) aid pid
            = deliveryExists st.db aid pid := by
          rw [deliveryExists_addDelivery, hpred, Bool.or_false]
        rw [pot, pot]
        dsimp only
        rw [countSends_append, hzero, delInd_congr aid pid hsame]
        omega

lemma runOnce_pot (env : Env) (db : DBState) (aid pid : String)
    (hc : ∀ x y, env.commitDeliveryOk x y = true) :
    countSends (runOnce env db).sent aid pid + delInd (runOnce env db).db aid pid
      ≤ delInd db aid pid := by
  rw [runOnce]
  dsimp only
  split
  · simp [countSends]
  · split
    · simp [countSends]
    · have h := lift_processGroups (P := fun s2 => pot aid pid s2 ≤ delInd db aid pid)
        env
        (fun b a st hst =>
          le_trans (pot_processAlert env aid pid b a st hc) hst)
        (fun st s k v hst => hst)
        (buildPairs (db.alerts.filter fun a => a.is_active)) ⟨db, 0, []⟩
        (by simp [pot, countSends, delInd])
      exact h

/-- C1: with delivery commits succeeding, at most one email is ever sent
for an (alert, post) pair across a cycle run twice over the same fetched
items (the same environment); and if the first run sent it, the delivery
record exists afterwards, so the second run sends nothing for that pair. -/
theorem spec_c1_dedup_idempotent (env : Env) (db : DBState) (aid pid : String)
    (hc : ∀ x y, env.commitDeliveryOk x y = true) :
    countSends ((runOnce env db).sent ++ (runOnce env (runOnce env db).db).sent)
        aid pid ≤ 1
    ∧ (countSends (runOnce env db).sent aid pid = 1 →
         deliveryExists (runOnce env db).db aid pid = true
         ∧ countSends (runOnce env (runOnce env db).db).sent aid pid = 0) := by
  have h1 := runOnce_pot env db aid pid hc
  have h2 := runOnce_pot env (runOnce env db).db aid pid hc
  have hd0 : delInd db aid pid ≤ 1 := by
    rw [delInd]; split <;> omega
  constructor
  · rw [countSends_append]
    omega
  · intro hone
    have hi1 : delInd (runOnce env db).db aid pid = 0 := by omega
    constructor
    · have hcopy := hi1
      rw [delInd] at hcopy
      split at hcopy
      · assumption
      · omega
    · omega

theorem spec_c1_dedup_idempotent_witness :
    countSends ((runOnce envEx dbEx).sent ++ (runOnce envEx (runOnce envEx dbEx).db).sent)
        "a1" "p1" ≤ 1 :=
  (spec_c1_dedup_idempotent envEx dbEx "a1" "p1" (fun _ _ => rfl)).1
